import Mathlib

/-!
Verification of the active-speaker / lip-track calculator
(`lip_track_calculator.cc`) against its natural-language specification.

The C++ code is embedded shallowly:
* normalized landmark coordinates and bounding boxes become rational records
  (C++ `float` arithmetic is modelled exactly, over `ℚ` where the code is
  sqrt-free and over `ℝ` for the Euclidean distance);
* `cv::Rect2f` operators `&`, `|` and `area` are translated from OpenCV's
  definitions;
* a float division whose divisor can be zero on inputs the claims quantify
  over (the IOU's union area; IEEE NaN result) is modelled as `Option ℚ`
  via `fdiv`, and a comparison against such a value follows IEEE semantics
  (every comparison with NaN is false); divisions whose divisors are
  nonzero in every configuration a claim speaks about (per-face statistic,
  classifier means) use total field division;
* `std::map<int32, T>` values keyed consecutively by `0..n-1` become lists
  indexed by position; the `std::map<int32,int32>` counter with arbitrary
  keys becomes a key-sorted association list (`bumpCount`), matching
  `std::map` iteration order;
* member-variable mutation becomes explicit state passing
  (`TrackState`, `SpeakerShotState`);
* a `std::vector` subscript that can actually be out of range in the code
  (the statistics read in `ProcessScene`) is modelled with `List.get?`,
  making the whole per-frame step return `Option`.
-/

namespace LipTrack

/-- A normalized 2D face-mesh landmark (`NormalizedLandmark`: x, y). -/
structure Landmark where
  x : ℚ
  y : ℚ
deriving DecidableEq

/-- A normalized face detection box (`relative_bounding_box`). -/
structure Box where
  xmin : ℚ
  ymin : ℚ
  width : ℚ
  height : ℚ
deriving DecidableEq

/-- `cv::Rect2f`. -/
structure RectF where
  x : ℚ
  y : ℚ
  width : ℚ
  height : ℚ
deriving DecidableEq

/-- `cv::Rect2f::area()`. -/
def RectF.area (r : RectF) : ℚ := r.width * r.height

/-- `cv::Rect2f::empty()`: `width <= 0 || height <= 0`. -/
def RectF.isEmpty (r : RectF) : Bool := r.width ≤ 0 || r.height ≤ 0

/-- OpenCV `operator&` on `cv::Rect2f` (intersection; all-zero rect when empty). -/
def rectInter (a b : RectF) : RectF :=
  let x1 := max a.x b.x
  let y1 := max a.y b.y
  let w := min (a.x + a.width) (b.x + b.width) - x1
  let h := min (a.y + a.height) (b.y + b.height) - y1
  if w ≤ 0 ∨ h ≤ 0 then ⟨0, 0, 0, 0⟩ else ⟨x1, y1, w, h⟩

/-- OpenCV `operator|` on `cv::Rect2f` (bounding box of the union;
an empty operand yields the other operand). -/
def rectUnion (a b : RectF) : RectF :=
  if a.isEmpty then b
  else if b.isEmpty then a
  else
    let x1 := min a.x b.x
    let y1 := min a.y b.y
    ⟨x1, y1, max (a.x + a.width) (b.x + b.width) - x1,
      max (a.y + a.height) (b.y + b.height) - y1⟩

/-- `LipTrackCalculator::DetectionToRect`. -/
def DetectionToRect (bbox : Box) : RectF :=
  ⟨bbox.xmin, bbox.ymin, bbox.width, bbox.height⟩

/-- IEEE float division: a zero divisor gives NaN/Inf, modelled as `none`. -/
def fdiv (a b : ℚ) : Option ℚ := if b = 0 then none else some (a / b)

/-- `LipTrackCalculator::GetIOU`: `intersection.area() / union.area()`,
with no guard against a zero union area. -/
def GetIOU (bbox_1 bbox_2 : Box) : Option ℚ :=
  let r1 := DetectionToRect bbox_1
  let r2 := DetectionToRect bbox_2
  fdiv (rectInter r1 r2).area (rectUnion r1 r2).area

/-- The C++ comparison `x > th` where `x` may be NaN (`none`):
any comparison with NaN is false. -/
def cmpGT (x : Option ℚ) (th : ℚ) : Bool :=
  match x with
  | none => false
  | some v => th < v

/-- Loop body of `LipTrackCalculator::MatchFace`, carrying the loop state
`(idx, maxi_iou)`.  A NaN IOU (`none`) fails both `iou < threshold` and
`iou > maxi_iou`, so it never updates the state, exactly as in C++. -/
def MatchFaceAux (th : ℚ) (face : Box) : List Box → ℤ → ℤ × ℚ → ℤ × ℚ
  | [], _, acc => acc
  | b :: rest, i, (idx, maxi) =>
    match GetIOU b face with
    | none => MatchFaceAux th face rest (i + 1) (idx, maxi)
    | some iou =>
      if iou < th then MatchFaceAux th face rest (i + 1) (idx, maxi)
      else if maxi < iou then MatchFaceAux th face rest (i + 1) (i, iou)
      else MatchFaceAux th face rest (i + 1) (idx, maxi)

/-- `LipTrackCalculator::MatchFace`: index of the matched previous-frame
detection, `-1` when there is no match. -/
def MatchFace (th : ℚ) (prev : List Box) (face : Box) : ℤ :=
  (MatchFaceAux th face prev 0 (-1, 0)).1

/-- `LipTrackCalculatorOptions`.  `α` is the scalar type of the lip
statistics (`ℚ` in decidable developments, `ℝ` when composed with the
square-root based distance). -/
structure Options (α : Type) where
  min_speaker_span : ℤ
  variance_history : ℕ
  mean_history : ℕ
  lip_mean_threshold_big_mouth : α
  lip_variance_threshold_big_mouth : α
  lip_mean_threshold_small_mouth : α
  lip_variance_threshold_small_mouth : α
  iou_threshold : ℚ
  min_shot_span : ℚ
  output_shot_boundary : Bool
  output_shot_boundary_only_on_change : Bool

/-- `LipTrackCalculator::GetDistance`: Euclidean distance of two normalized
landmarks scaled to pixel space (frame width `W`, height `H`). -/
noncomputable def GetDistance (W H : ℤ) (mark_1 mark_2 : Landmark) : ℝ :=
  Real.sqrt ((((mark_1.x : ℝ) - (mark_2.x : ℝ)) * (W : ℝ)) ^ 2
    + (((mark_1.y : ℝ) - (mark_2.y : ℝ)) * (H : ℝ)) ^ 2)

/-- The inner `mouth_height` accumulation of `GetStatistics`:
`d(82,87) + d(13,14) + d(312,317)` (`kLipUpperIdx` paired with
`kLipLowerIdx`). -/
noncomputable def lipHeightSum (W H : ℤ) (l : List Landmark) : ℝ :=
  GetDistance W H (l.getD 82 ⟨0, 0⟩) (l.getD 87 ⟨0, 0⟩)
    + GetDistance W H (l.getD 13 ⟨0, 0⟩) (l.getD 14 ⟨0, 0⟩)
    + GetDistance W H (l.getD 312 ⟨0, 0⟩) (l.getD 317 ⟨0, 0⟩)

/-- Loop of `LipTrackCalculator::GetStatistics`.  The accumulator `mh` is
the C++ local `mouth_height`, which is declared OUTSIDE the loop and never
reset between faces: a face with fewer than 468 landmarks is skipped
(`mh` carried along unchanged), and a processed face adds its three lip
distances to the PREVIOUS face's averaged height before dividing by 3. -/
noncomputable def GetStatisticsAux (W H : ℤ) : ℝ → List (List Landmark) → List ℝ
  | _, [] => []
  | mh, l :: ls =>
    if l.length < 468 then GetStatisticsAux W H mh ls
    else
      let w := GetDistance W H (l.getD 78 ⟨0, 0⟩) (l.getD 308 ⟨0, 0⟩)
      let h := (mh + lipHeightSum W H l) / 3
      (h / w) :: GetStatisticsAux W H h ls

/-- `LipTrackCalculator::GetStatistics` (initial `mouth_height = 0`). -/
noncomputable def GetStatistics (W H : ℤ) (landmark_lists : List (List Landmark)) :
    List ℝ :=
  GetStatisticsAux W H 0 landmark_lists

/-- The mouth aspect ratio as the specification words it: the average of the
three upper–lower lip distances of THIS face divided by the inner-corner
distance of THIS face.  Stated from the spec, for comparison with
`GetStatistics`. -/
noncomputable def lipStatSpec (W H : ℤ) (l : List Landmark) : ℝ :=
  (lipHeightSum W H l / 3) / GetDistance W H (l.getD 78 ⟨0, 0⟩) (l.getD 308 ⟨0, 0⟩)

/-- The C++ `while (size > variance_history) pop_front()` trim. -/
def trimFront {α : Type} : List α → ℕ → List α
  | [], _ => []
  | a :: l, n => if n < (a :: l).length then trimFront l n else a :: l

/-- `mean_short` of `LipTrackCalculator::IsActiveSpeaker`: the average of
the last `mean_history` values, or `face_lip_statistics[0]` (the OLDEST
stored value) when the history is shorter than `mean_history`. -/
def meanShort {α : Type} [LinearOrderedField α] (mh : ℕ) (hist : List α) : α :=
  if hist.length < mh then hist.getD 0 0
  else (hist.drop (hist.length - mh)).sum / (mh : α)

/-- The full-history mean of `IsActiveSpeaker`. -/
def histMean {α : Type} [LinearOrderedField α] (hist : List α) : α :=
  hist.sum / (hist.length : α)

/-- The full-history population variance of `IsActiveSpeaker`. -/
def histVariance {α : Type} [LinearOrderedField α] (hist : List α) : α :=
  (hist.map (fun v => (v - histMean hist) ^ 2)).sum / (hist.length : α)

/-- `LipTrackCalculator::IsActiveSpeaker`.  The calculator members
`speaker_mean_` / `speaker_variance_` are passed in and returned
explicitly: the result is `(decision, speaker_mean_', speaker_variance_')`. -/
def IsActiveSpeakerF {α : Type} [LinearOrderedField α] (opts : Options α)
    (spkMean spkVar : α) (hist : List α) : Bool × α × α :=
  if hist.length ≤ opts.variance_history / 2 then (false, spkMean, spkVar)
  else
    let ms := meanShort opts.mean_history hist
    let v := histVariance hist
    if (opts.lip_mean_threshold_big_mouth ≤ ms
          ∧ opts.lip_variance_threshold_big_mouth ≤ v ∧ spkMean < ms)
        ∨ (opts.lip_mean_threshold_small_mouth ≤ ms
          ∧ opts.lip_variance_threshold_small_mouth ≤ v ∧ spkVar < v) then
      (true, ms, v)
    else (false, spkMean, spkVar)

/-- The calculator state carried from one buffered frame to the next inside
`ProcessScene` (members `face_bbox_`, `face_statistics_`,
`meta_face_indices_`, `speaker_mean_`, `speaker_variance_`).
`face_statistics_` is a `std::map<int32, deque<float>>` whose keys are
exactly `0..n-1`, represented positionally. -/
structure TrackState (α : Type) where
  face_bbox : List Box
  face_statistics : List (List α)
  meta_face_indices : List ℤ
  speaker_mean : α
  speaker_variance : α
deriving DecidableEq

/-- The local state of the `cur_face_idx` loop of `ProcessScene`:
`cur_face_statistics`, `cur_meta_face_indices`, `meta_faces` (keys
`0..meta_face_count-1`, positional), `meta_face_count`, `cur_speaker_id`,
and the two speaker members mutated by `IsActiveSpeaker`. -/
structure FaceLoopSt (α : Type) where
  curStats : List (List α)
  curMeta : List ℤ
  metaFaces : List (List ℤ)
  metaCount : ℕ
  curSpeakerId : ℤ
  spkMean : α
  spkVar : α
deriving DecidableEq

/-- One iteration of the `cur_face_idx` loop of `ProcessScene`
(lines 270–306).  `statistics.get? curIdx` models the C++ read
`statistics[cur_face_idx]`, which is OUT OF BOUNDS whenever `GetStatistics`
skipped a face (the vector is then shorter than the detections list);
an out-of-bounds read aborts the embedding with `none`. -/
def faceStep {α : Type} [LinearOrderedField α] (opts : Options α)
    (st : TrackState α) (bufLen pos : ℕ) (statistics : List α)
    (curIdx : ℕ) (bbox : Box) (ls : FaceLoopSt α) : Option (FaceLoopSt α) :=
  let prevIdx := MatchFace opts.iou_threshold st.face_bbox bbox
  match statistics.get? curIdx with
  | none => none
  | some stat =>
    if prevIdx ≠ -1 then
      -- the face appeared before: extend the matched deque and trim it
      let dq := trimFront ((st.face_statistics.getD prevIdx.toNat []) ++ [stat])
        opts.variance_history
      let metaIdx := st.meta_face_indices.getD prevIdx.toNat (-1)
      let r := IsActiveSpeakerF opts ls.spkMean ls.spkVar dq
      some { curStats := ls.curStats ++ [dq]
             curMeta := ls.curMeta ++ [metaIdx]
             metaFaces := ls.metaFaces.set metaIdx.toNat
               ((ls.metaFaces.getD metaIdx.toNat []).set pos (curIdx : ℤ))
             metaCount := ls.metaCount
             curSpeakerId := if r.1 then (curIdx : ℤ) else ls.curSpeakerId
             spkMean := r.2.1
             spkVar := r.2.2 }
    else
      -- a new face: fresh single-value deque, mint a new meta face
      let dq := [stat]
      let r := IsActiveSpeakerF opts ls.spkMean ls.spkVar dq
      some { curStats := ls.curStats ++ [dq]
             curMeta := ls.curMeta ++ [(ls.metaCount : ℤ)]
             metaFaces := ls.metaFaces
               ++ [(List.replicate bufLen (-1 : ℤ)).set pos (curIdx : ℤ)]
             metaCount := ls.metaCount + 1
             curSpeakerId := if r.1 then (curIdx : ℤ) else ls.curSpeakerId
             spkMean := r.2.1
             spkVar := r.2.2 }

/-- The `cur_face_idx` loop of `ProcessScene` over all detections. -/
def faceLoop {α : Type} [LinearOrderedField α] (opts : Options α)
    (st : TrackState α) (bufLen pos : ℕ) (statistics : List α) :
    List Box → ℕ → FaceLoopSt α → Option (FaceLoopSt α)
  | [], _, ls => some ls
  | b :: rest, i, ls =>
    match faceStep opts st bufLen pos statistics i b ls with
    | none => none
    | some ls' => faceLoop opts st bufLen pos statistics rest (i + 1) ls'

/-- `num_of_active_speaker[meta_face]++` (insert with count 1 when absent);
the association list is kept sorted by key, matching `std::map` order. -/
def bumpCount : List (ℤ × ℕ) → ℤ → List (ℤ × ℕ)
  | [], k => [(k, 1)]
  | (k', c) :: rest, k =>
    if k = k' then (k', c + 1) :: rest
    else if k < k' then (k, 1) :: (k', c) :: rest
    else (k', c) :: bumpCount rest k

/-- The body of one buffered frame of `ProcessScene` (lines 264–324), for a
frame with non-empty landmarks and detections.  Returns the updated
calculator state together with the scene-local `meta_faces`,
`meta_face_count` and `num_of_active_speaker`. -/
def processFrameStats {α : Type} [LinearOrderedField α] (opts : Options α)
    (bufLen pos : ℕ) (statistics : List α) (detections : List Box)
    (st : TrackState α) (metaFaces : List (List ℤ)) (metaCount : ℕ)
    (numActive : List (ℤ × ℕ)) :
    Option (TrackState α × List (List ℤ) × ℕ × List (ℤ × ℕ)) :=
  match faceLoop opts st bufLen pos statistics detections 0
      ⟨[], [], metaFaces, metaCount, -1, st.speaker_mean, st.speaker_variance⟩ with
  | none => none
  | some ls =>
    let numActive' :=
      if ls.curSpeakerId ≠ -1 then
        bumpCount numActive (ls.curMeta.getD ls.curSpeakerId.toNat (-1))
      else numActive
    -- "Update the history" (lines 318–323): note the per-frame reset of
    -- speaker_mean_ / speaker_variance_ to zero.
    some ({ face_bbox := detections
            face_statistics := ls.curStats
            meta_face_indices := ls.curMeta
            speaker_mean := 0
            speaker_variance := 0 },
          ls.metaFaces, ls.metaCount, numActive')

/-- The dominant-speaker scan of `ProcessScene` (lines 327–334): fold over
the key-sorted `num_of_active_speaker` map with accumulator
`(dominate_speaker_id, max_num)`, replacing it on strictly larger counts. -/
def findDominant : List (ℤ × ℕ) → ℤ × ℕ → ℤ × ℕ
  | [], acc => acc
  | (k, c) :: rest, (id, mx) =>
    if mx < c then findDominant rest (k, c) else findDominant rest (id, mx)

/-- `dominate_speaker_id` after the scan (initially `(-1, 0)`). -/
def dominantId (m : List (ℤ × ℕ)) : ℤ := (findDominant m (-1, 0)).1

/-- `Timestamp::Seconds()` of a microsecond timestamp difference. -/
def secondsQ (t : ℤ) : ℚ := (t : ℚ) / 1000000

/-- `LipTrackCalculator::Transmit`: debounce then emit.  Returns the packet
put on the `IS_SPEAKER_CHANGE` stream (`none` = nothing emitted). -/
def Transmit {α : Type} (opts : Options α) (lastShot : ℤ)
    (is_speaker_change : Bool) (timestamp : ℤ) : Option Bool :=
  if (if secondsQ (timestamp - lastShot) < opts.min_shot_span then false
      else is_speaker_change) then
    some true
  else if !opts.output_shot_boundary_only_on_change then some false
  else none

/-- Process-wide speaker-shot state: `pre_dominate_speaker_id_`,
`pre_dominate_speaker_detection_` (empty or a single box) and
`last_shot_timestamp_`. -/
structure SpeakerShotState where
  preId : ℤ
  preDet : Option Box
  lastShot : ℤ
deriving DecidableEq

/-- One window evaluation of the shot-boundary part of `ProcessScene`:
`domId` is `dominate_speaker_id`, `domEarliest` the dominant speaker's
detection in the earliest frame where it appears (used for the IOU
comparison), `domLatest` its detection in the latest frame where it appears
(stored as `pre_dominate_speaker_detection_` after the ROI loop), and `ts`
the first buffered timestamp. -/
structure WindowEvent where
  domId : ℤ
  domEarliest : Option Box
  domLatest : Option Box
  ts : ℤ
deriving DecidableEq

/-- The shot-boundary decision and history update of `ProcessScene`
(lines 336–364 for no dominant speaker, 366–435 otherwise).
`opts.output_shot_boundary` models `HasTag(kOutputShot) &&
options_.output_shot_boundary()`.  Returns the new state and the packet
emitted on the shot stream. -/
def windowShotStep {α : Type} (opts : Options α) (st : SpeakerShotState)
    (ev : WindowEvent) : SpeakerShotState × Option Bool :=
  if ev.domId = -1 then
    (⟨-1, none, st.lastShot⟩,
      if opts.output_shot_boundary then Transmit opts st.lastShot false ev.ts
      else none)
  else if opts.output_shot_boundary then
    if st.preId = -1 then
      (⟨ev.domId, ev.domLatest, ev.ts⟩, Transmit opts st.lastShot true ev.ts)
    else
      match st.preDet, ev.domEarliest with
      | some pd, some d =>
        (⟨ev.domId, ev.domLatest,
            if ! cmpGT (GetIOU pd d) opts.iou_threshold then ev.ts else st.lastShot⟩,
          Transmit opts st.lastShot (! cmpGT (GetIOU pd d) opts.iou_threshold) ev.ts)
      | _, _ => (⟨ev.domId, ev.domLatest, st.lastShot⟩, none)
  else (⟨ev.domId, ev.domLatest, st.lastShot⟩, none)

/-- The boolean handed to `Transmit` by `windowShotStep` (`none` when
`Transmit` is not called at all). -/
def shotCandidate {α : Type} (opts : Options α) (st : SpeakerShotState)
    (ev : WindowEvent) : Option Bool :=
  if ev.domId = -1 then
    if opts.output_shot_boundary then some false else none
  else if opts.output_shot_boundary then
    if st.preId = -1 then some true
    else
      match st.preDet, ev.domEarliest with
      | some pd, some d => some (! cmpGT (GetIOU pd d) opts.iou_threshold)
      | _, _ => none
  else none

/-- A run of consecutive window evaluations (final state only). -/
def runShotState {α : Type} (opts : Options α) (st : SpeakerShotState) :
    List WindowEvent → SpeakerShotState
  | [] => st
  | ev :: rest => runShotState opts ((windowShotStep opts st ev).1) rest

/-- First-key lookup count in the `num_of_active_speaker` association list
(0 when the key is absent). -/
def alCount : List (ℤ × ℕ) → ℤ → ℕ
  | [], _ => 0
  | (k, c) :: rest, j => if j = k then c else alCount rest j

/-- Largest count appearing in the association list. -/
def maxC : List (ℤ × ℕ) → ℕ
  | [] => 0
  | p :: rest => max p.2 (maxC rest)

/-- Strictly ascending keys (the `std::map` iteration-order invariant). -/
def SortedAL (m : List (ℤ × ℕ)) : Prop :=
  m.Pairwise (fun p q => p.1 < q.1)

/-- A full 468-landmark test face: landmark 308 sits at `(c, 0)`, the three
lower-lip landmarks 87, 14, 317 at `(0, a)`, every other landmark at the
origin — so the mouth width is `|c|` and each lip-opening distance `|a|`
in a 1×1 frame. -/
def faceOf (a c : ℚ) : List Landmark :=
  (List.range 468).map fun i =>
    if i = 308 then ⟨c, 0⟩
    else if i = 87 ∨ i = 14 ∨ i = 317 then ⟨0, a⟩
    else ⟨0, 0⟩

/-- Test options over `ℚ`: `variance_history = 2`, `mean_history = 1`,
big-mouth thresholds out of reach, small-mouth thresholds zero,
`iou_threshold = 1/2`. -/
def opts3 : Options ℚ := ⟨0, 2, 1, 1000, 1000, 0, 0, 1/2, 0, false, false⟩

/-- Test options over `ℝ` with the same numeric fields as `opts3`. -/
noncomputable def opts1R : Options ℝ := ⟨0, 2, 1, 1000, 1000, 0, 0, 1/2, 0, false, false⟩

/-- The unit test box. -/
def B3 : Box := ⟨0, 0, 1, 1⟩

/-- Shot-decision test options: `min_shot_span = 5` seconds,
`iou_threshold = 1/2`, shot output enabled. -/
def optsShot : Options ℚ := ⟨0, 2, 1, 1000, 1000, 0, 0, 1/2, 5, true, false⟩

/-- C6: the claim says `GetIOU` returns 0 for two degenerate (zero-area)
boxes instead of dividing by the zero union area.  In fact the code has no
guard at all: for two zero-area boxes the union area is 0 and the division
`0/0` is performed (an IEEE NaN, `none` in this embedding), not 0. -/
theorem c6_code_bug :
    GetIOU ⟨0, 0, 0, 0⟩ ⟨0, 0, 0, 0⟩ = none
      ∧ (rectUnion (DetectionToRect ⟨0, 0, 0, 0⟩) (DetectionToRect ⟨0, 0, 0, 0⟩)).area = 0
      ∧ GetIOU ⟨0, 0, 0, 0⟩ ⟨0, 0, 0, 0⟩ ≠ some 0 := by
  refine ⟨by with_unfolding_all decide, by with_unfolding_all decide, ?_⟩
  with_unfolding_all decide

/-- C5 counterexample: the claim says a previous detection is matched only
if its IOU STRICTLY exceeds `iou_threshold`.  With `iou_threshold = 1/2`
and boxes of IOU exactly `1/2`, `MatchFace` nevertheless returns a match
(index 0), because the code skips only candidates with `iou < threshold`. -/
theorem c5_counterexample :
    GetIOU ⟨0, 0, 1, 1⟩ ⟨0, 0, 1, 1/2⟩ = some (1/2)
      ∧ MatchFace (1/2) [⟨0, 0, 1, 1⟩] ⟨0, 0, 1, 1/2⟩ = 0 := by
  exact ⟨by with_unfolding_all decide, by with_unfolding_all decide⟩

/-- C4 counterexample: the claim says that when the evidence check passes
and `N < mean_history`, the history consists of a single stored value and
`mean_short` is that value.  With `variance_history = 2` and
`mean_history = 4`, the history `[1, 3]` passes the check (`2 > 2/2`), has
`2 < 4` values, and is not a single-value history (`mean_short` is the
OLDEST value `1`, not a unique stored value). -/
theorem c4_counterexample :
    ¬ (∀ hist : List ℚ, (2 : ℕ) / 2 < hist.length → hist.length < 4 →
        ∃ v, hist = [v] ∧ meanShort 4 hist = v) := by
  intro h
  obtain ⟨v, hv, -⟩ := h [1, 3] (by norm_num) (by norm_num)
  simp at hv

/-- C3 counterexample: the claim says the best-mean/best-variance ratchet is
zeroed once per window and persists across the window's frames, so a face
classified in a later frame must exceed the incumbent.  Running three
consecutive buffered frames of one window evaluation from the initial
state (single face, statistics 10, 30, 31): frame 2's face is classified
speaking with `mean_short = 30`, `variance = 100`, yet the state handed to
frame 3 has `speaker_mean = speaker_variance = 0` (the code re-zeroes them
after EVERY frame); frame 3's face is then classified speaking with
`mean_short = 31`, `variance = 1/4`, although against the persisted
incumbent `(30, 100)` it would not be (`IsActiveSpeakerF` with incumbent
`(30, 100)` returns `false` on the same history). -/
theorem c3_counterexample :
    processFrameStats opts3 3 0 [10] [B3] ⟨[], [], [], 0, 0⟩ [] 0 []
        = some (⟨[B3], [[10]], [0], 0, 0⟩, [[0, -1, -1]], 1, [])
      ∧ processFrameStats opts3 3 1 [30] [B3] ⟨[B3], [[10]], [0], 0, 0⟩ [[0, -1, -1]] 1 []
        = some (⟨[B3], [[10, 30]], [0], 0, 0⟩, [[0, 0, -1]], 1, [(0, 1)])
      ∧ IsActiveSpeakerF opts3 (0 : ℚ) 0 [10, 30] = (true, 30, 100)
      ∧ processFrameStats opts3 3 2 [31] [B3] ⟨[B3], [[10, 30]], [0], 0, 0⟩ [[0, 0, -1]] 1 [(0, 1)]
        = some (⟨[B3], [[30, 31]], [0], 0, 0⟩, [[0, 0, 0]], 1, [(0, 2)])
      ∧ IsActiveSpeakerF opts3 (0 : ℚ) 0 [30, 31] = (true, 31, 1/4)
      ∧ IsActiveSpeakerF opts3 (30 : ℚ) 100 [30, 31] = (false, 30, 100) := by
  refine ⟨?_, ?_, ?_, ?_, ?_, ?_⟩ <;> with_unfolding_all decide

/-- C3 amended: the ratchet state is re-zeroed at the end of EVERY processed
frame, not once per window: every per-frame update hands the next frame a
state with `speaker_mean = speaker_variance = 0`, and within one frame's
face loop the incumbent changes exactly when a face is classified as
speaking, taking that face's `mean_short` and `variance` (so only later
faces of the SAME frame must beat the incumbent). -/
theorem c3_amended :
    (∀ (opts : Options ℚ) (bufLen pos : ℕ) (stats : List ℚ) (dets : List Box)
        (st : TrackState ℚ) (mf : List (List ℤ)) (mc : ℕ) (na : List (ℤ × ℕ))
        (out : TrackState ℚ × List (List ℤ) × ℕ × List (ℤ × ℕ)),
        processFrameStats opts bufLen pos stats dets st mf mc na = some out →
        out.1.speaker_mean = 0 ∧ out.1.speaker_variance = 0)
    ∧ (∀ (opts : Options ℚ) (m v : ℚ) (hist : List ℚ),
        ((IsActiveSpeakerF opts m v hist).1 = false →
          IsActiveSpeakerF opts m v hist = (false, m, v))
        ∧ ((IsActiveSpeakerF opts m v hist).1 = true →
          IsActiveSpeakerF opts m v hist
              = (true, meanShort opts.mean_history hist, histVariance hist)
            ∧ ((opts.lip_mean_threshold_big_mouth ≤ meanShort opts.mean_history hist
                ∧ opts.lip_variance_threshold_big_mouth ≤ histVariance hist
                ∧ m < meanShort opts.mean_history hist)
              ∨ (opts.lip_mean_threshold_small_mouth ≤ meanShort opts.mean_history hist
                ∧ opts.lip_variance_threshold_small_mouth ≤ histVariance hist
                ∧ v < histVariance hist)))) := by
  constructor
  · intro opts bufLen pos stats dets st mf mc na out h
    unfold processFrameStats at h
    rcases hfl : faceLoop opts st bufLen pos stats dets 0
        ⟨[], [], mf, mc, -1, st.speaker_mean, st.speaker_variance⟩ with - | ls
    · rw [hfl] at h; exact absurd h (by simp)
    · rw [hfl] at h
      simp only [Option.some.injEq] at h
      subst h
      exact ⟨rfl, rfl⟩
  · intro opts m v hist
    by_cases h1 : hist.length ≤ opts.variance_history / 2
    · rw [IsActiveSpeakerF, if_pos h1]
      exact ⟨fun _ => rfl, by simp⟩
    · by_cases h2 : (opts.lip_mean_threshold_big_mouth ≤ meanShort opts.mean_history hist
          ∧ opts.lip_variance_threshold_big_mouth ≤ histVariance hist
          ∧ m < meanShort opts.mean_history hist)
        ∨ (opts.lip_mean_threshold_small_mouth ≤ meanShort opts.mean_history hist
          ∧ opts.lip_variance_threshold_small_mouth ≤ histVariance hist
          ∧ v < histVariance hist)
      · have heq : IsActiveSpeakerF opts m v hist
            = (true, meanShort opts.mean_history hist, histVariance hist) := by
          rw [IsActiveSpeakerF, if_neg h1]
          exact if_pos h2
        rw [heq]
        exact ⟨by simp, fun _ => ⟨rfl, h2⟩⟩
      · have heq : IsActiveSpeakerF opts m v hist = (false, m, v) := by
          rw [IsActiveSpeakerF, if_neg h1]
          exact if_neg h2
        rw [heq]
        exact ⟨fun _ => rfl, by simp⟩

/-- C3 witness: applying the amended claim's classifier clause at incumbent
`(0, 0)` and history `[10, 30]` under `opts3`. -/
theorem c3_witness :
    IsActiveSpeakerF opts3 (0 : ℚ) 0 [10, 30]
        = (true, meanShort opts3.mean_history [10, 30], histVariance [10, 30])
      ∧ ((opts3.lip_mean_threshold_big_mouth ≤ meanShort opts3.mean_history [10, 30]
          ∧ opts3.lip_variance_threshold_big_mouth ≤ histVariance [10, 30]
          ∧ (0 : ℚ) < meanShort opts3.mean_history [10, 30])
        ∨ (opts3.lip_mean_threshold_small_mouth ≤ meanShort opts3.mean_history [10, 30]
          ∧ opts3.lip_variance_threshold_small_mouth ≤ histVariance [10, 30]
          ∧ (0 : ℚ) < histVariance [10, 30])) :=
  (c3_amended.2 opts3 0 0 [10, 30]).2 (by with_unfolding_all decide)

theorem trimFront_eq_drop {α : Type} (l : List α) (n : ℕ) :
    trimFront l n = l.drop (l.length - n) := by
  induction l with
  | nil => simp [trimFront]
  | cons a l ih =>
    rw [trimFront]
    by_cases h : n < (a :: l).length
    · rw [if_pos h, ih]
      have hlen : (a :: l).length - n = (l.length - n) + 1 := by
        simp only [List.length_cons] at h ⊢
        omega
      rw [hlen, List.drop_succ_cons]
    · rw [if_neg h]
      have hlen : (a :: l).length - n = 0 := by
        simp only [List.length_cons] at h ⊢
        omega
      rw [hlen, List.drop_zero]

theorem trimFront_length_le {α : Type} (l : List α) (n : ℕ) :
    (trimFront l n).length ≤ n := by
  by_cases h : n < l.length
  · rw [trimFront_eq_drop, List.length_drop]
    omega
  · rw [trimFront_eq_drop, List.length_drop]
    omega

theorem faceStep_stats_bound {opts : Options ℚ} {st : TrackState ℚ}
    {bufLen pos : ℕ} {stats : List ℚ} {i : ℕ} {b : Box} {ls ls' : FaceLoopSt ℚ}
    (hvh : 1 ≤ opts.variance_history)
    (h : faceStep opts st bufLen pos stats i b ls = some ls')
    (hls : ∀ hq ∈ ls.curStats, hq.length ≤ opts.variance_history) :
    ∀ hq ∈ ls'.curStats, hq.length ≤ opts.variance_history := by
  simp only [faceStep] at h
  split at h
  · exact absurd h (by simp)
  · split at h <;>
    · simp only [Option.some.injEq] at h
      subst h
      intro hq hmem
      simp only [List.mem_append, List.mem_singleton] at hmem
      rcases hmem with hmem | hmem
      · exact hls hq hmem
      · subst hmem
        first
          | exact trimFront_length_le _ _
          | simpa using hvh

theorem faceLoop_stats_bound {opts : Options ℚ} {st : TrackState ℚ}
    {bufLen pos : ℕ} {stats : List ℚ} (dets : List Box)
    (hvh : 1 ≤ opts.variance_history) :
    ∀ (i : ℕ) (ls ls' : FaceLoopSt ℚ),
      faceLoop opts st bufLen pos stats dets i ls = some ls' →
      (∀ hq ∈ ls.curStats, hq.length ≤ opts.variance_history) →
      ∀ hq ∈ ls'.curStats, hq.length ≤ opts.variance_history := by
  induction dets with
  | nil =>
    intro i ls ls' h hls
    simp only [faceLoop, Option.some.injEq] at h
    subst h
    exact hls
  | cons b rest ih =>
    intro i ls ls' h hls
    simp only [faceLoop] at h
    rcases hstep : faceStep opts st bufLen pos stats i b ls with - | ls₁
    · rw [hstep] at h; exact absurd h (by simp)
    · rw [hstep] at h
      exact ih (i + 1) ls₁ ls' h (faceStep_stats_bound hvh hstep hls)

/-- C9: after every per-frame update of the rolling statistics store
(`variance_history ≥ 1`), every face's history has length at most
`variance_history`; and the trim applied on a match drops exactly the
oldest elements from the front of "the matched previous history plus the
new value", preserving the order of the remainder (the no-match branch of
`faceStep` starts the fresh single-value history `[stat]`). -/
theorem c9_history :
    (∀ (opts : Options ℚ) (bufLen pos : ℕ) (stats : List ℚ) (dets : List Box)
        (st : TrackState ℚ) (mf : List (List ℤ)) (mc : ℕ) (na : List (ℤ × ℕ))
        (out : TrackState ℚ × List (List ℤ) × ℕ × List (ℤ × ℕ)),
        1 ≤ opts.variance_history →
        processFrameStats opts bufLen pos stats dets st mf mc na = some out →
        ∀ h ∈ out.1.face_statistics, h.length ≤ opts.variance_history)
    ∧ (∀ (vh : ℕ) (dq : List ℚ) (v : ℚ),
        trimFront (dq ++ [v]) vh = (dq ++ [v]).drop (dq.length + 1 - vh)) := by
  constructor
  · intro opts bufLen pos stats dets st mf mc na out hvh h
    unfold processFrameStats at h
    rcases hfl : faceLoop opts st bufLen pos stats dets 0
        ⟨[], [], mf, mc, -1, st.speaker_mean, st.speaker_variance⟩ with - | ls
    · rw [hfl] at h; exact absurd h (by simp)
    · rw [hfl] at h
      simp only [Option.some.injEq] at h
      subst h
      exact faceLoop_stats_bound dets hvh 0 _ ls hfl (by simp)
  · intro vh dq v
    rw [trimFront_eq_drop]
    simp [List.length_append]

/-- C9 witness: the bound applied to the second frame of the `opts3` run
(history `[10, 30]`, `variance_history = 2`). -/
theorem c9_witness :
    ∀ h ∈ [[(10 : ℚ), 30]], h.length ≤ opts3.variance_history :=
  c9_history.1 opts3 3 1 [30] [B3] ⟨[B3], [[10]], [0], 0, 0⟩ [[0, -1, -1]] 1 []
    (⟨[B3], [[10, 30]], [0], 0, 0⟩, [[0, 0, -1]], 1, [(0, 1)])
    (by norm_num [opts3]) (by with_unfolding_all decide)

theorem getD_zero_eq_headD {α : Type} (l : List α) (d : α) :
    l.getD 0 d = l.headD d := by
  cases l <;> rfl

/-- C4 amended: when the evidence check passes, `mean_short` is the average
of the last `mean_history` values when `N ≥ mean_history`, and is the
FIRST (oldest) stored value — not "the single stored value", since several
values may be stored — when `N < mean_history`. -/
theorem c4_amended :
    ∀ (vh mh : ℕ) (hist : List ℚ), 0 < mh → vh / 2 < hist.length →
      (hist.length < mh → meanShort mh hist = hist.headD 0)
      ∧ (mh ≤ hist.length →
          meanShort mh hist = (hist.reverse.take mh).sum / (mh : ℚ)) := by
  intro vh mh hist hmh hev
  constructor
  · intro hlt
    rw [meanShort, if_pos hlt, getD_zero_eq_headD]
  · intro hge
    rw [meanShort, if_neg (by omega)]
    have hsum : (hist.drop (hist.length - mh)).sum = (hist.reverse.take mh).sum := by
      have hrev := List.reverse_take (l := hist.reverse) (n := mh)
      simp only [List.reverse_reverse, List.length_reverse] at hrev
      rw [← hrev, List.sum_reverse]
    rw [hsum]

/-- C4 witness: the amended claim at the history `[1, 3]` with
`variance_history = 2`, `mean_history = 4` (the `N < mean_history` regime). -/
theorem c4_witness : meanShort 4 ([1, 3] : List ℚ) = ([1, 3] : List ℚ).headD 0 :=
  (c4_amended 2 4 [1, 3] (by norm_num) (by norm_num)).1 (by norm_num)

theorem Transmit_not_true_of_recent {α : Type} (opts : Options α)
    (lastShot : ℤ) (cand : Bool) (ts : ℤ)
    (h : secondsQ (ts - lastShot) < opts.min_shot_span) :
    Transmit opts lastShot cand ts ≠ some true := by
  rw [Transmit, if_pos h]
  simp only [Bool.false_eq_true, if_false]
  split <;> simp

theorem windowShotStep_emit_Transmit {α : Type} (opts : Options α)
    (st : SpeakerShotState) (ev : WindowEvent) :
    (windowShotStep opts st ev).2 = none
      ∨ ∃ c, (windowShotStep opts st ev).2 = Transmit opts st.lastShot c ev.ts := by
  rw [windowShotStep]
  split
  · split
    · exact Or.inr ⟨false, rfl⟩
    · exact Or.inl rfl
  · split
    · split
      · exact Or.inr ⟨true, rfl⟩
      · split
        · exact Or.inr ⟨_, rfl⟩
        · exact Or.inl rfl
    · exact Or.inl rfl

theorem windowShotStep_not_true_of_recent {α : Type} (opts : Options α)
    (st : SpeakerShotState) (ev : WindowEvent)
    (h : secondsQ (ev.ts - st.lastShot) < opts.min_shot_span) :
    (windowShotStep opts st ev).2 ≠ some true := by
  rcases windowShotStep_emit_Transmit opts st ev with he | ⟨c, he⟩
  · rw [he]; simp
  · rw [he]; exact Transmit_not_true_of_recent opts st.lastShot c ev.ts h

theorem windowShotStep_lastShot_cases {α : Type} (opts : Options α)
    (st : SpeakerShotState) (ev : WindowEvent) :
    ((windowShotStep opts st ev).1).lastShot = st.lastShot
      ∨ ((windowShotStep opts st ev).1).lastShot = ev.ts := by
  rw [windowShotStep]
  split
  · exact Or.inl rfl
  · split
    · split
      · exact Or.inr rfl
      · split
        · split
          · exact Or.inr rfl
          · exact Or.inl rfl
        · exact Or.inl rfl
    · exact Or.inl rfl

theorem windowShotStep_lastShot_of_candidate_true {α : Type} (opts : Options α)
    (st : SpeakerShotState) (ev : WindowEvent)
    (h : shotCandidate opts st ev = some true) :
    ((windowShotStep opts st ev).1).lastShot = ev.ts := by
  by_cases hdom : ev.domId = -1
  · rw [shotCandidate, if_pos hdom] at h
    split at h <;> simp at h
  · by_cases hout : opts.output_shot_boundary = true
    · by_cases hpre : st.preId = -1
      · rw [windowShotStep, if_neg hdom, if_pos hout, if_pos hpre]
      · rw [shotCandidate, if_neg hdom, if_pos hout, if_neg hpre] at h
        rw [windowShotStep, if_neg hdom, if_pos hout, if_neg hpre]
        rcases hpd : st.preDet with - | pd <;> rcases hde : ev.domEarliest with - | d <;>
          rw [hpd, hde] at h
        · simp at h
        · simp at h
        · simp at h
        · simp only [Option.some.injEq] at h
          simp [h]
    · rw [shotCandidate, if_neg hdom, if_neg hout] at h
      simp at h

theorem runShotState_lastShot_ge {α : Type} (opts : Options α) (t : ℤ) :
    ∀ (evs : List WindowEvent) (st : SpeakerShotState),
      (∀ e ∈ evs, t ≤ e.ts) → t ≤ st.lastShot →
      t ≤ (runShotState opts st evs).lastShot := by
  intro evs
  induction evs with
  | nil => intro st _ hst; exact hst
  | cons e rest ih =>
    intro st hts hst
    rw [runShotState]
    refine ih _ (fun x hx => hts x (List.mem_cons_of_mem e hx)) ?_
    rcases windowShotStep_lastShot_cases opts st e with hc | hc
    · rw [hc]; exact hst
    · rw [hc]; exact hts e (List.mem_cons_self e rest)

theorem secondsQ_mono {a b : ℤ} (h : a ≤ b) : secondsQ a ≤ secondsQ b := by
  rw [secondsQ, secondsQ]
  have hab : (a : ℚ) ≤ (b : ℚ) := by exact_mod_cast h
  exact (div_le_div_iff_of_pos_right (by norm_num)).mpr hab

/-- C10: whenever a window evaluation reaches a candidate shot-change
decision of `true` (shot output enabled, a dominant speaker exists, and
either there was no previous dominant speaker or the IOU between the
previous and current dominant boxes is at most `iou_threshold`),
`last_shot_timestamp_` is set to the window's first buffered timestamp —
even when the debounce suppresses the actual `true` emission (second
conjunct: under the debounce condition nothing `true` is emitted, yet the
timestamp is still updated). -/
theorem c10_lastshot :
    ∀ (opts : Options ℚ) (st : SpeakerShotState) (ev : WindowEvent) (d : Box),
      opts.output_shot_boundary = true →
      ev.domId ≠ -1 →
      ev.domEarliest = some d →
      (st.preId = -1
        ∨ ∃ pd iou, st.preDet = some pd ∧ GetIOU pd d = some iou
            ∧ iou ≤ opts.iou_threshold) →
      ((windowShotStep opts st ev).1).lastShot = ev.ts
        ∧ (secondsQ (ev.ts - st.lastShot) < opts.min_shot_span →
            (windowShotStep opts st ev).2 ≠ some true) := by
  intro opts st ev d hout hdom hde hcand
  refine ⟨?_, fun hrec => windowShotStep_not_true_of_recent opts st ev hrec⟩
  refine windowShotStep_lastShot_of_candidate_true opts st ev ?_
  rcases hcand with hpre | ⟨pd, iou, hpd, hiou, hle⟩
  · rw [shotCandidate, if_neg hdom, if_pos hout, if_pos hpre]
  · by_cases hpre : st.preId = -1
    · rw [shotCandidate, if_neg hdom, if_pos hout, if_pos hpre]
    · rw [shotCandidate, if_neg hdom, if_pos hout, if_neg hpre, hpd, hde]
      have : cmpGT (GetIOU pd d) opts.iou_threshold = false := by
        rw [hiou, cmpGT]
        simp only [decide_eq_false_iff_not, not_lt]
        exact hle
      simp [this]

/-- C10 witness: a dominant speaker at timestamp 0 one second after a
recorded shot at `-1` (still inside the 5-second debounce of `optsShot`):
the emission is suppressed but `last_shot_timestamp_` becomes 0. -/
theorem c10_witness :
    ((windowShotStep optsShot ⟨-1, none, -1000000⟩ ⟨0, some B3, some B3, 0⟩).1).lastShot
        = (⟨0, some B3, some B3, 0⟩ : WindowEvent).ts
      ∧ (secondsQ ((⟨0, some B3, some B3, 0⟩ : WindowEvent).ts
            - (⟨-1, none, -1000000⟩ : SpeakerShotState).lastShot) < optsShot.min_shot_span →
          (windowShotStep optsShot ⟨-1, none, -1000000⟩ ⟨0, some B3, some B3, 0⟩).2 ≠ some true) :=
  c10_lastshot optsShot ⟨-1, none, -1000000⟩ ⟨0, some B3, some B3, 0⟩ B3
    (by with_unfolding_all decide) (by with_unfolding_all decide)
    (by with_unfolding_all decide) (Or.inl (by with_unfolding_all decide))

/-- C7: the debounce of the shot-boundary signal.
(1) In any run of window evaluations, two candidate `true` decisions whose
first-buffered timestamps lie within `min_shot_span` seconds of each other
(the intervening windows not preceding the first) are never both emitted
as `true`: the second emission is forced away from `true` because the
first candidate updated `last_shot_timestamp_`.
(2) Any `true` decision less than `min_shot_span` seconds after the last
recorded shot timestamp is downgraded (never emitted as `true`).
(3) With `output_shot_boundary_only_on_change` set, no `false` signal is
ever emitted by `Transmit`. -/
theorem c7_debounce :
    (∀ (opts : Options ℚ) (init : SpeakerShotState) (pre : List WindowEvent)
        (e1 : WindowEvent) (mid : List WindowEvent) (e2 : WindowEvent),
        shotCandidate opts (runShotState opts init pre) e1 = some true →
        shotCandidate opts (runShotState opts
          ((windowShotStep opts (runShotState opts init pre) e1).1) mid) e2 = some true →
        (∀ e ∈ mid, e1.ts ≤ e.ts) →
        secondsQ (e2.ts - e1.ts) < opts.min_shot_span →
        ¬((windowShotStep opts (runShotState opts init pre) e1).2 = some true
          ∧ (windowShotStep opts (runShotState opts
              ((windowShotStep opts (runShotState opts init pre) e1).1) mid) e2).2
            = some true))
    ∧ (∀ (opts : Options ℚ) (lastShot : ℤ) (cand : Bool) (ts : ℤ),
        secondsQ (ts - lastShot) < opts.min_shot_span →
        Transmit opts lastShot cand ts ≠ some true)
    ∧ (∀ (opts : Options ℚ) (lastShot : ℤ) (cand : Bool) (ts : ℤ),
        opts.output_shot_boundary_only_on_change = true →
        Transmit opts lastShot cand ts ≠ some false) := by
  refine ⟨?_, ?_, ?_⟩
  · intro opts init pre e1 mid e2 h1 h2 hmid hspan
    rintro ⟨-, hemit2⟩
    have hup : ((windowShotStep opts (runShotState opts init pre) e1).1).lastShot = e1.ts :=
      windowShotStep_lastShot_of_candidate_true opts _ e1 h1
    have hge : e1.ts ≤ (runShotState opts
        ((windowShotStep opts (runShotState opts init pre) e1).1) mid).lastShot :=
      runShotState_lastShot_ge opts e1.ts mid _ hmid (le_of_eq hup.symm)
    have hlt : secondsQ (e2.ts - (runShotState opts
        ((windowShotStep opts (runShotState opts init pre) e1).1) mid).lastShot)
        < opts.min_shot_span :=
      lt_of_le_of_lt (secondsQ_mono (by omega)) hspan
    exact windowShotStep_not_true_of_recent opts _ e2 hlt hemit2
  · exact fun opts lastShot cand ts h => Transmit_not_true_of_recent opts lastShot cand ts h
  · intro opts lastShot cand ts honly
    rw [Transmit]
    split <;> simp [honly]

/-- C7 witness: under `optsShot` (5-second debounce), a first speaker
appears at 10 s (candidate `true`) and a disjoint-box speaker change is
decided at 11 s (candidate `true`, 1 s < 5 s): not both are emitted. -/
theorem c7_witness :
    ¬((windowShotStep optsShot (runShotState optsShot ⟨-1, none, 0⟩ [])
          ⟨0, some B3, some B3, 10000000⟩).2 = some true
      ∧ (windowShotStep optsShot (runShotState optsShot
            ((windowShotStep optsShot (runShotState optsShot ⟨-1, none, 0⟩ [])
              ⟨0, some B3, some B3, 10000000⟩).1) [])
          ⟨1, some ⟨2, 2, 1, 1⟩, some ⟨2, 2, 1, 1⟩, 11000000⟩).2 = some true) :=
  c7_debounce.1 optsShot ⟨-1, none, 0⟩ [] ⟨0, some B3, some B3, 10000000⟩ []
    ⟨1, some ⟨2, 2, 1, 1⟩, some ⟨2, 2, 1, 1⟩, 11000000⟩
    (by with_unfolding_all decide) (by with_unfolding_all decide)
    (by simp) (by with_unfolding_all decide)

theorem getD_range_map {β : Type} (f : ℕ → β) (n i : ℕ) (d : β) (h : i < n) :
    ((List.range n).map f).getD i d = f i := by
  show (((List.range n).map f).get? i).getD d = f i
  rw [List.get?_map, List.get?_range h]
  rfl

theorem faceOf_length (a c : ℚ) : (faceOf a c).length = 468 := by
  simp [faceOf]

theorem faceOf_getD (a c : ℚ) (i : ℕ) (hi : i < 468) :
    (faceOf a c).getD i ⟨0, 0⟩ =
      if i = 308 then ⟨c, 0⟩
      else if i = 87 ∨ i = 14 ∨ i = 317 then ⟨0, a⟩
      else ⟨0, 0⟩ := by
  rw [faceOf]
  exact getD_range_map _ 468 i _ hi

theorem dist_unit_x : GetDistance 1 1 ⟨0, 0⟩ ⟨1, 0⟩ = 1 := by
  rw [GetDistance]
  have harg : ((((0 : ℚ) : ℝ) - ((1 : ℚ) : ℝ)) * ((1 : ℤ) : ℝ)) ^ 2
      + ((((0 : ℚ) : ℝ) - ((0 : ℚ) : ℝ)) * ((1 : ℤ) : ℝ)) ^ 2 = 1 := by
    push_cast
    ring
  rw [harg, Real.sqrt_one]

theorem dist_unit_y : GetDistance 1 1 ⟨0, 0⟩ ⟨0, 1⟩ = 1 := by
  rw [GetDistance]
  have harg : ((((0 : ℚ) : ℝ) - ((0 : ℚ) : ℝ)) * ((1 : ℤ) : ℝ)) ^ 2
      + ((((0 : ℚ) : ℝ) - ((1 : ℚ) : ℝ)) * ((1 : ℤ) : ℝ)) ^ 2 = 1 := by
    push_cast
    ring
  rw [harg, Real.sqrt_one]

theorem faceOf_width_dist :
    GetDistance 1 1 ((faceOf 1 1).getD 78 ⟨0, 0⟩) ((faceOf 1 1).getD 308 ⟨0, 0⟩) = 1 := by
  rw [faceOf_getD 1 1 78 (by norm_num), faceOf_getD 1 1 308 (by norm_num)]
  norm_num
  exact dist_unit_x

theorem faceOf_width_dist_elem :
    GetDistance 1 1 ((faceOf 1 1)[78]?.getD ⟨0, 0⟩) ((faceOf 1 1)[308]?.getD ⟨0, 0⟩) = 1 := by
  rw [← List.getD_eq_getElem?_getD, ← List.getD_eq_getElem?_getD]
  exact faceOf_width_dist

theorem faceOf_height_sum : lipHeightSum 1 1 (faceOf 1 1) = 3 := by
  rw [lipHeightSum,
    faceOf_getD 1 1 82 (by norm_num), faceOf_getD 1 1 87 (by norm_num),
    faceOf_getD 1 1 13 (by norm_num), faceOf_getD 1 1 14 (by norm_num),
    faceOf_getD 1 1 312 (by norm_num), faceOf_getD 1 1 317 (by norm_num)]
  norm_num
  rw [dist_unit_y]
  norm_num

/-- C2: the claim says every full-landmark face's extracted statistic is
(the average of the three fixed lip distances) / (the corner distance),
regardless of its position in the sequence.  The code violates this: the
`mouth_height` accumulator is never reset between faces, so for two
identical unit faces (all lip distances 1, corner distance 1) the first
statistic is the claimed `1` but the second is `4/3` — the first face's
averaged height leaks into the second face's numerator — while the claimed
per-face formula (`lipStatSpec`) gives `1`. -/
theorem c2_code_bug :
    GetStatistics 1 1 [faceOf 1 1, faceOf 1 1] = [1, 4/3]
      ∧ lipStatSpec 1 1 (faceOf 1 1) = 1
      ∧ (4 : ℝ) / 3 ≠ 1 := by
  refine ⟨?_, ?_, by norm_num⟩
  · simp only [GetStatistics, GetStatisticsAux, faceOf_length]
    norm_num [faceOf_width_dist, faceOf_width_dist_elem, faceOf_height_sum]
  · rw [lipStatSpec, faceOf_width_dist, faceOf_height_sum]
    norm_num

/-- C1: the claim says every downstream read of the statistics sequence at
a face index is in bounds and refers to that face.  The code violates
this: with a first face whose landmark list is empty (skipped by
`GetStatistics`) and two detections, the statistics vector has one entry,
so the per-frame loop of `ProcessScene` reads `statistics[1]` out of
bounds (the embedding aborts with `none`) — and the in-bounds read
`statistics[0]` it performs for face 0 is face 1's statistic. -/
theorem c1_code_bug :
    processFrameStats opts1R 1 0 (GetStatistics 1 1 [[], faceOf 1 1])
      [⟨0, 0, 1, 1⟩, ⟨2, 2, 1, 1⟩] ⟨[], [], [], 0, 0⟩ [] 0 [] = none := by
  have hx : GetStatistics 1 1 [[], faceOf 1 1] = [1] := by
    simp only [GetStatistics, GetStatisticsAux, faceOf_length, List.length_nil]
    norm_num [faceOf_width_dist, faceOf_width_dist_elem, faceOf_height_sum]
  rw [hx]
  have hm : ∀ b : Box, MatchFace opts1R.iou_threshold
      (⟨[], [], [], (0 : ℝ), 0⟩ : TrackState ℝ).face_bbox b = -1 := fun _ => rfl
  rw [processFrameStats]
  have hstep0 : ∀ ls : FaceLoopSt ℝ, faceLoop opts1R ⟨[], [], [], 0, 0⟩ 1 0 [1]
      [⟨0, 0, 1, 1⟩, ⟨2, 2, 1, 1⟩] 0 ls
      = none := by
    intro ls
    rw [faceLoop]
    rw [faceStep]
    simp only [hm, List.get?_cons_zero, ne_eq, neg_neg, not_true_eq_false, if_false,
      List.get?_cons_succ, List.get?_nil]
    rw [faceLoop, faceStep]
    simp only [hm, List.get?_cons_succ, List.get?_nil]
  rw [hstep0]

theorem MatchFaceAux_spec (th : ℚ) (face : Box) :
    ∀ (l : List Box) (i idx : ℤ) (maxi : ℚ), 0 ≤ maxi →
      ((MatchFaceAux th face l i (idx, maxi)).1 = idx
          ∧ (MatchFaceAux th face l i (idx, maxi)).2 = maxi
          ∧ (∀ (j : ℕ) (b : Box) (v : ℚ), l.get? j = some b →
              GetIOU b face = some v → (v < th ∨ v ≤ maxi)))
        ∨ (∃ (j : ℕ) (b : Box) (v : ℚ), l.get? j = some b
            ∧ GetIOU b face = some v
            ∧ (MatchFaceAux th face l i (idx, maxi)).1 = i + j
            ∧ (MatchFaceAux th face l i (idx, maxi)).2 = v
            ∧ th ≤ v ∧ maxi < v
            ∧ (∀ (j' : ℕ) (b' : Box) (v' : ℚ), l.get? j' = some b' →
                GetIOU b' face = some v' → v' ≤ v)
            ∧ (∀ (j' : ℕ) (b' : Box) (v' : ℚ), j' < j → l.get? j' = some b' →
                GetIOU b' face = some v' → v' < v)) := by
  intro l
  induction l with
  | nil =>
    intro i idx maxi h0
    left
    exact ⟨rfl, rfl, by simp⟩
  | cons b rest ih =>
    intro i idx maxi h0
    rcases hio : GetIOU b face with - | v
    · -- NaN: the candidate is skipped, state unchanged
      have hstep : MatchFaceAux th face (b :: rest) i (idx, maxi)
          = MatchFaceAux th face rest (i + 1) (idx, maxi) := by
        rw [MatchFaceAux, hio]
      rw [hstep]
      rcases ih (i + 1) idx maxi h0 with ⟨h1, h2, h3⟩ | ⟨j, b', v', hbj, hv, h1, h2, hth, hmx, hall, hfirst⟩
      · left
        refine ⟨h1, h2, ?_⟩
        intro j c w hj hw
        cases j with
        | zero =>
          rw [List.get?_cons_zero, Option.some.injEq] at hj
          subst hj
          rw [hio] at hw
          exact absurd hw (by simp)
        | succ j =>
          rw [List.get?_cons_succ] at hj
          exact h3 j c w hj hw
      · right
        refine ⟨j + 1, b', v', by rw [List.get?_cons_succ]; exact hbj, hv,
          by rw [h1]; push_cast; ring, h2, hth, hmx, ?_, ?_⟩
        · intro j' c w hj hw
          cases j' with
          | zero =>
            rw [List.get?_cons_zero, Option.some.injEq] at hj
            subst hj
            rw [hio] at hw
            exact absurd hw (by simp)
          | succ j' =>
            rw [List.get?_cons_succ] at hj
            exact hall j' c w hj hw
        · intro j' c w hlt hj hw
          cases j' with
          | zero =>
            rw [List.get?_cons_zero, Option.some.injEq] at hj
            subst hj
            rw [hio] at hw
            exact absurd hw (by simp)
          | succ j' =>
            rw [List.get?_cons_succ] at hj
            exact hfirst j' c w (by omega) hj hw
    · by_cases hlt : v < th
      · -- below the threshold: skipped, state unchanged
        have hstep : MatchFaceAux th face (b :: rest) i (idx, maxi)
            = MatchFaceAux th face rest (i + 1) (idx, maxi) := by
          rw [MatchFaceAux, hio]
          simp only [hlt, ite_true]
        rw [hstep]
        rcases ih (i + 1) idx maxi h0 with ⟨h1, h2, h3⟩ | ⟨j, b', v', hbj, hv, h1, h2, hth, hmx, hall, hfirst⟩
        · left
          refine ⟨h1, h2, ?_⟩
          intro j c w hj hw
          cases j with
          | zero =>
            rw [List.get?_cons_zero, Option.some.injEq] at hj
            subst hj
            rw [hio, Option.some.injEq] at hw
            subst hw
            exact Or.inl hlt
          | succ j =>
            rw [List.get?_cons_succ] at hj
            exact h3 j c w hj hw
        · right
          refine ⟨j + 1, b', v', by rw [List.get?_cons_succ]; exact hbj, hv,
            by rw [h1]; push_cast; ring, h2, hth, hmx, ?_, ?_⟩
          · intro j' c w hj hw
            cases j' with
            | zero =>
              rw [List.get?_cons_zero, Option.some.injEq] at hj
              subst hj
              rw [hio, Option.some.injEq] at hw
              subst hw
              exact le_of_lt (lt_of_lt_of_le hlt hth)
            | succ j' =>
              rw [List.get?_cons_succ] at hj
              exact hall j' c w hj hw
          · intro j' c w hltj hj hw
            cases j' with
            | zero =>
              rw [List.get?_cons_zero, Option.some.injEq] at hj
              subst hj
              rw [hio, Option.some.injEq] at hw
              subst hw
              exact lt_of_lt_of_le hlt hth
            | succ j' =>
              rw [List.get?_cons_succ] at hj
              exact hfirst j' c w (by omega) hj hw
      · by_cases hgt : maxi < v
        · -- new maximum: the candidate is selected
          have hstep : MatchFaceAux th face (b :: rest) i (idx, maxi)
              = MatchFaceAux th face rest (i + 1) (i, v) := by
            rw [MatchFaceAux, hio]
            simp only [hlt, hgt, ite_true, ite_false]
          rw [hstep]
          have h0v : (0 : ℚ) ≤ v := le_of_lt (lt_of_le_of_lt h0 hgt)
          rcases ih (i + 1) i v h0v with ⟨h1, h2, h3⟩ | ⟨j, b', v', hbj, hv, h1, h2, hth, hmx, hall, hfirst⟩
          · right
            refine ⟨0, b, v, List.get?_cons_zero, hio, by rw [h1]; ring, h2,
              not_lt.mp hlt, hgt, ?_, ?_⟩
            · intro j' c w hj hw
              cases j' with
              | zero =>
                rw [List.get?_cons_zero, Option.some.injEq] at hj
                subst hj
                rw [hio, Option.some.injEq] at hw
                subst hw
                exact le_rfl
              | succ j' =>
                rw [List.get?_cons_succ] at hj
                rcases h3 j' c w hj hw with hc | hc
                · exact le_of_lt (lt_of_lt_of_le hc (not_lt.mp hlt))
                · exact hc
            · intro j' c w hltj hj hw
              omega
          · right
            refine ⟨j + 1, b', v', by rw [List.get?_cons_succ]; exact hbj, hv,
              by rw [h1]; push_cast; ring, h2, hth, lt_trans hgt hmx, ?_, ?_⟩
            · intro j' c w hj hw
              cases j' with
              | zero =>
                rw [List.get?_cons_zero, Option.some.injEq] at hj
                subst hj
                rw [hio, Option.some.injEq] at hw
                subst hw
                exact le_of_lt hmx
              | succ j' =>
                rw [List.get?_cons_succ] at hj
                exact hall j' c w hj hw
            · intro j' c w hltj hj hw
              cases j' with
              | zero =>
                rw [List.get?_cons_zero, Option.some.injEq] at hj
                subst hj
                rw [hio, Option.some.injEq] at hw
                subst hw
                exact hmx
              | succ j' =>
                rw [List.get?_cons_succ] at hj
                exact hfirst j' c w (by omega) hj hw
        · -- qualifying but not a new maximum: state unchanged
          have hstep : MatchFaceAux th face (b :: rest) i (idx, maxi)
              = MatchFaceAux th face rest (i + 1) (idx, maxi) := by
            rw [MatchFaceAux, hio]
            simp only [hlt, hgt, ite_true, ite_false]
          rw [hstep]
          rcases ih (i + 1) idx maxi h0 with ⟨h1, h2, h3⟩ | ⟨j, b', v', hbj, hv, h1, h2, hth, hmx, hall, hfirst⟩
          · left
            refine ⟨h1, h2, ?_⟩
            intro j c w hj hw
            cases j with
            | zero =>
              rw [List.get?_cons_zero, Option.some.injEq] at hj
              subst hj
              rw [hio, Option.some.injEq] at hw
              subst hw
              exact Or.inr (not_lt.mp hgt)
            | succ j =>
              rw [List.get?_cons_succ] at hj
              exact h3 j c w hj hw
          · right
            refine ⟨j + 1, b', v', by rw [List.get?_cons_succ]; exact hbj, hv,
              by rw [h1]; push_cast; ring, h2, hth, hmx, ?_, ?_⟩
            · intro j' c w hj hw
              cases j' with
              | zero =>
                rw [List.get?_cons_zero, Option.some.injEq] at hj
                subst hj
                rw [hio, Option.some.injEq] at hw
                subst hw
                exact le_of_lt (lt_of_le_of_lt (not_lt.mp hgt) hmx)
              | succ j' =>
                rw [List.get?_cons_succ] at hj
                exact hall j' c w hj hw
            · intro j' c w hltj hj hw
              cases j' with
              | zero =>
                rw [List.get?_cons_zero, Option.some.injEq] at hj
                subst hj
                rw [hio, Option.some.injEq] at hw
                subst hw
                exact lt_of_le_of_lt (not_lt.mp hgt) hmx
              | succ j' =>
                rw [List.get?_cons_succ] at hj
                exact hfirst j' c w (by omega) hj hw

/-- C5 amended: `MatchFace` returns the previous detection with the maximum
IOU only if that IOU is AT LEAST `iou_threshold` (equality matches — the
code skips only `iou < threshold`) and strictly positive; otherwise `-1`
("new"); under ties for the maximum the first maximum in previous-detection
order wins (earlier candidates all have strictly smaller IOU). -/
theorem c5_amended :
    ∀ (th : ℚ) (prev : List Box) (face : Box),
      (MatchFace th prev face = -1 ↔
        ∀ (j : ℕ) (b : Box) (v : ℚ), prev.get? j = some b →
          GetIOU b face = some v → (v < th ∨ v ≤ 0))
      ∧ (∀ k : ℕ, MatchFace th prev face = (k : ℤ) →
          ∃ (b : Box) (v : ℚ), prev.get? k = some b ∧ GetIOU b face = some v
            ∧ th ≤ v ∧ 0 < v
            ∧ (∀ (j : ℕ) (b' : Box) (v' : ℚ), prev.get? j = some b' →
                GetIOU b' face = some v' → v' ≤ v)
            ∧ (∀ (j : ℕ) (b' : Box) (v' : ℚ), j < k → prev.get? j = some b' →
                GetIOU b' face = some v' → v' < v)) := by
  intro th prev face
  rcases MatchFaceAux_spec th face prev 0 (-1) 0 le_rfl with ⟨h1, -, h3⟩ |
    ⟨j, b, v, hbj, hv, h1, -, hth, hmx, hall, hfirst⟩
  · constructor
    · rw [MatchFace, h1]
      exact iff_of_true rfl h3
    · intro k hk
      rw [MatchFace, h1] at hk
      omega
  · have hj : MatchFace th prev face = (j : ℤ) := by
      rw [MatchFace, h1]
      ring
    constructor
    · rw [hj]
      refine iff_of_false (by omega) ?_
      intro hcontra
      rcases hcontra j b v hbj hv with hc | hc
      · exact absurd hth (not_le.mpr hc)
      · exact absurd hc (not_le.mpr hmx)
    · intro k hk
      rw [hj] at hk
      have : j = k := by omega
      subst this
      exact ⟨b, v, hbj, hv, hth, hmx, hall, hfirst⟩

/-- C5 witness: the amended claim applied at `iou_threshold = 1/2`, one
previous box and an identical current box (IOU `1`): the match is index 0,
its IOU is at least the threshold and positive, and it is maximal. -/
theorem c5_witness :
    ∃ (b : Box) (v : ℚ), [(⟨0, 0, 1, 1⟩ : Box)].get? 0 = some b
      ∧ GetIOU b ⟨0, 0, 1, 1⟩ = some v
      ∧ (1 : ℚ)/2 ≤ v ∧ 0 < v
      ∧ (∀ (j : ℕ) (b' : Box) (v' : ℚ), [(⟨0, 0, 1, 1⟩ : Box)].get? j = some b' →
          GetIOU b' ⟨0, 0, 1, 1⟩ = some v' → v' ≤ v)
      ∧ (∀ (j : ℕ) (b' : Box) (v' : ℚ), j < 0 → [(⟨0, 0, 1, 1⟩ : Box)].get? j = some b' →
          GetIOU b' ⟨0, 0, 1, 1⟩ = some v' → v' < v) :=
  (c5_amended (1/2) [⟨0, 0, 1, 1⟩] ⟨0, 0, 1, 1⟩).2 0 (by with_unfolding_all decide)

theorem bump_mem (k : ℤ) :
    ∀ (m : List (ℤ × ℕ)) (p : ℤ × ℕ), p ∈ bumpCount m k →
      p.1 = k ∨ ∃ c, (p.1, c) ∈ m := by
  intro m
  induction m with
  | nil =>
    intro p hp
    rw [bumpCount, List.mem_singleton] at hp
    subst hp
    exact Or.inl rfl
  | cons q rest ih =>
    intro p hp
    rcases q with ⟨k', c⟩
    rw [bumpCount] at hp
    split_ifs at hp with h1 h2
    · rcases List.mem_cons.mp hp with rfl | hmem
      · exact Or.inr ⟨c, List.mem_cons_self _ _⟩
      · exact Or.inr ⟨p.2, List.mem_cons_of_mem _ (by simpa using hmem)⟩
    · rcases List.mem_cons.mp hp with rfl | hmem
      · exact Or.inl rfl
      · rcases List.mem_cons.mp hmem with rfl | hmem'
        · exact Or.inr ⟨c, List.mem_cons_self _ _⟩
        · exact Or.inr ⟨p.2, List.mem_cons_of_mem _ (by simpa using hmem')⟩
    · rcases List.mem_cons.mp hp with rfl | hmem
      · exact Or.inr ⟨c, List.mem_cons_self _ _⟩
      · rcases ih p hmem with hk | ⟨c', hc'⟩
        · exact Or.inl hk
        · exact Or.inr ⟨c', List.mem_cons_of_mem _ hc'⟩

theorem bump_sorted (k : ℤ) :
    ∀ m : List (ℤ × ℕ), SortedAL m → SortedAL (bumpCount m k) := by
  intro m
  induction m with
  | nil =>
    intro _
    rw [bumpCount, SortedAL]
    simp
  | cons q rest ih =>
    intro h
    rcases q with ⟨k', c⟩
    rw [SortedAL, List.pairwise_cons] at h
    rw [bumpCount]
    split_ifs with h1 h2
    · rw [SortedAL, List.pairwise_cons]
      exact ⟨h.1, h.2⟩
    · rw [SortedAL, List.pairwise_cons, List.pairwise_cons]
      refine ⟨?_, h.1, h.2⟩
      intro q hq
      rcases List.mem_cons.mp hq with rfl | hq'
      · exact h2
      · exact lt_trans h2 (h.1 q hq')
    · rw [SortedAL, List.pairwise_cons]
      refine ⟨?_, ih h.2⟩
      intro q hq
      rcases bump_mem k rest q hq with hk | ⟨c', hc'⟩
      · rw [hk]
        omega
      · exact h.1 (q.1, c') hc'

theorem alCount_eq_zero_of_not_mem (j : ℤ) :
    ∀ m : List (ℤ × ℕ), (∀ p ∈ m, j ≠ p.1) → alCount m j = 0 := by
  intro m
  induction m with
  | nil => intro _; rfl
  | cons q rest ih =>
    intro h
    rcases q with ⟨k', c⟩
    rw [alCount, if_neg (h (k', c) (List.mem_cons_self _ _))]
    exact ih fun p hp => h p (List.mem_cons_of_mem _ hp)

theorem bump_alCount (k j : ℤ) :
    ∀ m : List (ℤ × ℕ), SortedAL m →
      alCount (bumpCount m k) j = if j = k then alCount m j + 1 else alCount m j := by
  intro m
  induction m with
  | nil =>
    intro _
    rw [bumpCount, alCount, alCount]
    split_ifs <;> rfl
  | cons q rest ih =>
    intro h
    rcases q with ⟨k', c⟩
    rw [SortedAL, List.pairwise_cons] at h
    rw [bumpCount]
    by_cases h1 : k = k'
    · subst h1
      rw [if_pos rfl]
      simp only [alCount]
      split_ifs <;> omega
    · rw [if_neg h1]
      by_cases h2 : k < k'
      · rw [if_pos h2]
        simp only [alCount]
        by_cases hj : j = k
        · rw [if_pos hj, if_pos hj, if_neg (show ¬ j = k' by omega)]
          have hz0 : alCount rest j = 0 := by
            refine alCount_eq_zero_of_not_mem j rest fun p hp => ?_
            have := h.1 p hp
            simp only at this
            omega
          rw [hz0]
        · rw [if_neg hj, if_neg hj]
      · rw [if_neg h2]
        simp only [alCount]
        by_cases hj : j = k'
        · rw [if_pos hj, if_pos hj, if_neg (show ¬ j = k by omega)]
        · rw [if_neg hj, if_neg hj, ih h.2]

theorem fold_sorted (hits : List ℤ) :
    ∀ m : List (ℤ × ℕ), SortedAL m → SortedAL (hits.foldl bumpCount m) := by
  induction hits with
  | nil => intro m hm; exact hm
  | cons a t ih =>
    intro m hm
    rw [List.foldl_cons]
    exact ih _ (bump_sorted a m hm)

theorem fold_alCount (j : ℤ) (hits : List ℤ) :
    ∀ m : List (ℤ × ℕ), SortedAL m →
      alCount (hits.foldl bumpCount m) j = alCount m j + hits.count j := by
  induction hits with
  | nil =>
    intro m _
    simp
  | cons a t ih =>
    intro m hm
    rw [List.foldl_cons, ih _ (bump_sorted a m hm), bump_alCount a j m hm]
    by_cases hj : j = a
    · subst hj
      rw [if_pos rfl, List.count_cons_self]
      omega
    · rw [if_neg hj, List.count_cons_of_ne hj]

theorem alCount_entry :
    ∀ m : List (ℤ × ℕ), SortedAL m → ∀ p ∈ m, alCount m p.1 = p.2 := by
  intro m
  induction m with
  | nil => intro _ p hp; exact absurd hp (by simp)
  | cons q rest ih =>
    intro h p hp
    rcases q with ⟨k', c⟩
    rw [SortedAL, List.pairwise_cons] at h
    rcases List.mem_cons.mp hp with rfl | hmem
    · rw [alCount, if_pos rfl]
    · rw [alCount, if_neg (by have := h.1 p hmem; omega)]
      exact ih h.2 p hmem

theorem alCount_pos_mem (j : ℤ) :
    ∀ m : List (ℤ × ℕ), 0 < alCount m j → (j, alCount m j) ∈ m := by
  intro m
  induction m with
  | nil => intro h; exact absurd h (by simp [alCount])
  | cons q rest ih =>
    intro h
    rcases q with ⟨k', c⟩
    rw [alCount] at h ⊢
    by_cases hj : j = k'
    · rw [if_pos hj] at h ⊢
      subst hj
      exact List.mem_cons_self _ _
    · rw [if_neg hj] at h ⊢
      exact List.mem_cons_of_mem _ (ih h)

theorem alCount_le_maxC (j : ℤ) :
    ∀ m : List (ℤ × ℕ), alCount m j ≤ maxC m := by
  intro m
  induction m with
  | nil => rw [alCount, maxC]
  | cons q rest ih =>
    rcases q with ⟨k', c⟩
    rw [alCount, maxC]
    by_cases hj : j = k'
    · rw [if_pos hj]
      omega
    · rw [if_neg hj]
      omega

theorem maxC_ge : ∀ (m : List (ℤ × ℕ)) (p : ℤ × ℕ), p ∈ m → p.2 ≤ maxC m := by
  intro m
  induction m with
  | nil => intro p hp; exact absurd hp (by simp)
  | cons q rest ih =>
    intro p hp
    rw [maxC]
    rcases List.mem_cons.mp hp with rfl | hmem
    · omega
    · have := ih p hmem
      omega

theorem fd_snd : ∀ (m : List (ℤ × ℕ)) (a : ℤ) (mx : ℕ),
    (findDominant m (a, mx)).2 = max mx (maxC m) := by
  intro m
  induction m with
  | nil =>
    intro a mx
    rw [findDominant, maxC]
    omega
  | cons q rest ih =>
    intro a mx
    rcases q with ⟨k, c⟩
    rw [findDominant, maxC]
    by_cases hc : mx < c
    · rw [if_pos hc, ih]
      omega
    · rw [if_neg hc, ih]
      omega

theorem fd_keep : ∀ (m : List (ℤ × ℕ)) (a : ℤ) (mx : ℕ),
    maxC m ≤ mx → findDominant m (a, mx) = (a, mx) := by
  intro m
  induction m with
  | nil => intro a mx _; rw [findDominant]
  | cons q rest ih =>
    intro a mx h
    rcases q with ⟨k, c⟩
    rw [maxC] at h
    rw [findDominant, if_neg (by omega : ¬ mx < c)]
    exact ih a mx (by omega)

theorem fd_mem : ∀ (m : List (ℤ × ℕ)) (a : ℤ) (mx : ℕ),
    mx < maxC m → ∃ p ∈ m, findDominant m (a, mx) = (p.1, p.2) := by
  intro m
  induction m with
  | nil =>
    intro a mx h
    rw [maxC] at h
    omega
  | cons q rest ih =>
    intro a mx h
    rcases q with ⟨k, c⟩
    rw [maxC] at h
    rw [findDominant]
    by_cases hc : mx < c
    · rw [if_pos hc]
      by_cases hr : maxC rest ≤ c
      · exact ⟨(k, c), List.mem_cons_self _ _, fd_keep rest k c hr⟩
      · rcases ih k c (by omega) with ⟨p, hp, hfd⟩
        exact ⟨p, List.mem_cons_of_mem _ hp, hfd⟩
    · rw [if_neg hc]
      rcases ih a mx (by omega) with ⟨p, hp, hfd⟩
      exact ⟨p, List.mem_cons_of_mem _ hp, hfd⟩

theorem fd_first :
    ∀ (m : List (ℤ × ℕ)), SortedAL m → ∀ (a : ℤ) (mx : ℕ) (p : ℤ × ℕ),
      p ∈ m → mx < p.2 → p.2 = max mx (maxC m) →
      (findDominant m (a, mx)).1 ≤ p.1 := by
  intro m
  induction m with
  | nil =>
    intro _ a mx p hp
    exact absurd hp (by simp)
  | cons q rest ih =>
    intro hs a mx p hp hmx hval
    rcases q with ⟨k, c⟩
    rw [SortedAL, List.pairwise_cons] at hs
    rw [maxC] at hval
    rw [findDominant]
    by_cases hc : mx < c
    · rw [if_pos hc]
      rcases List.mem_cons.mp hp with rfl | hmem
      · by_cases hr : maxC rest ≤ c
        · rw [fd_keep rest k c hr]
        · exfalso
          simp only at hval hmx
          omega
      · by_cases hceq : p.2 = c
        · have hr : maxC rest ≤ c := by
            have := maxC_ge rest p hmem
            omega
          rw [fd_keep rest k c hr]
          exact le_of_lt (hs.1 p hmem)
        · refine ih hs.2 k c p hmem (by omega) ?_
          have := maxC_ge rest p hmem
          omega
    · rw [if_neg hc]
      rcases List.mem_cons.mp hp with rfl | hmem
      · omega
      · refine ih hs.2 a mx p hmem hmx ?_
        have := maxC_ge rest p hmem
        omega

/-- C8: in every window evaluation the dominant speaker is the meta face
with the highest speaking-hit count (`hits` lists the per-frame hit
registrations folded through `bumpCount`, exactly as `ProcessScene`
maintains `num_of_active_speaker`); under ties for the highest count the
lowest meta-face id wins (every tied id is ≥ the winner); with no hits at
all there is no dominant speaker (`-1`). -/
theorem c8_dominant :
    ∀ hits : List ℤ,
      (hits = [] → dominantId (hits.foldl bumpCount []) = -1)
      ∧ (∀ k : ℤ, hits ≠ [] → dominantId (hits.foldl bumpCount []) = k →
          k ∈ hits
          ∧ (∀ j ∈ hits, hits.count j ≤ hits.count k)
          ∧ (∀ j ∈ hits, hits.count j = hits.count k → k ≤ j)) := by
  intro hits
  constructor
  · intro h
    subst h
    rfl
  · intro k hne hk
    have hsor : SortedAL (hits.foldl bumpCount []) :=
      fold_sorted hits [] (by rw [SortedAL]; simp)
    have hcnt : ∀ j : ℤ, alCount (hits.foldl bumpCount []) j = hits.count j := by
      intro j
      rw [fold_alCount j hits [] (by rw [SortedAL]; simp), alCount]
      omega
    rcases hits with - | ⟨h0, t⟩
    · exact absurd rfl hne
    · have hmem0 : h0 ∈ h0 :: t := List.mem_cons_self _ _
      have hpos : 0 < alCount ((h0 :: t).foldl bumpCount []) h0 := by
        rw [hcnt h0]
        exact List.count_pos_iff_mem.mpr hmem0
      have hentry : (h0, alCount ((h0 :: t).foldl bumpCount []) h0)
          ∈ (h0 :: t).foldl bumpCount [] := alCount_pos_mem h0 _ hpos
      have hmaxpos : 0 < maxC ((h0 :: t).foldl bumpCount []) :=
        lt_of_lt_of_le hpos (maxC_ge _ _ hentry)
      rcases fd_mem ((h0 :: t).foldl bumpCount []) (-1) 0 hmaxpos with ⟨p, hp, hfd⟩
      have hfd2 : p.2 = maxC ((h0 :: t).foldl bumpCount []) := by
        have := fd_snd ((h0 :: t).foldl bumpCount []) (-1) 0
        rw [hfd] at this
        simpa using this
      have hkp : k = p.1 := by
        rw [dominantId, hfd] at hk
        exact hk.symm
      subst hkp
      have hcntk : (h0 :: t).count p.1 = maxC ((h0 :: t).foldl bumpCount []) := by
        rw [← hcnt p.1, alCount_entry _ hsor p hp, hfd2]
      refine ⟨?_, ?_, ?_⟩
      · rw [← List.count_pos_iff_mem, hcntk]
        exact hmaxpos
      · intro j hj
        rw [hcntk, ← hcnt j]
        exact alCount_le_maxC j _
      · intro j hj hcj
        have hj_entry : (j, alCount ((h0 :: t).foldl bumpCount []) j)
            ∈ (h0 :: t).foldl bumpCount [] := by
          refine alCount_pos_mem j _ ?_
          rw [hcnt j]
          exact List.count_pos_iff_mem.mpr hj
        have hjval : alCount ((h0 :: t).foldl bumpCount []) j
            = maxC ((h0 :: t).foldl bumpCount []) := by
          rw [hcnt j, hcj, hcntk]
        have := fd_first ((h0 :: t).foldl bumpCount []) hsor (-1) 0
          (j, alCount ((h0 :: t).foldl bumpCount []) j) hj_entry
          (by rw [hjval]; exact hmaxpos) (by rw [hjval]; simp)
        rw [hfd] at this
        exact this

/-- C8 witness: hits `[0, 1, 1, 0, 2]` — ids 0 and 1 tie with two hits
each, id 2 has one; the dominant id is the lowest tied id 0. -/
theorem c8_witness :
    (0 : ℤ) ∈ ([0, 1, 1, 0, 2] : List ℤ)
      ∧ (∀ j ∈ ([0, 1, 1, 0, 2] : List ℤ),
          ([0, 1, 1, 0, 2] : List ℤ).count j ≤ ([0, 1, 1, 0, 2] : List ℤ).count 0)
      ∧ (∀ j ∈ ([0, 1, 1, 0, 2] : List ℤ),
          ([0, 1, 1, 0, 2] : List ℤ).count j = ([0, 1, 1, 0, 2] : List ℤ).count 0 →
          (0 : ℤ) ≤ j) :=
  (c8_dominant [0, 1, 1, 0, 2]).2 0 (by simp) (by with_unfolding_all decide)

end LipTrack
